import Mathlib

/-!
# Reploom — verification of the draft-generation / KB core

Shallow embedding of the algorithmic core of the Reploom backend:

* `app/kb/chunker.py` — token-window chunking and hash-based deduplication;
* `app/kb/retrieval.py` — document ingestion (`upsert_document`) and
  workspace-filtered vector search (`search_kb`);
* `app/agents/reploom_crew.py` — the policy guard (`policy_guard_node`),
  routing (`should_halt`) and the classifier's parse/default step;
* `app/api/routes/reploom.py` — the draft-review actions
  (`approve_review`, `reject_review`, `request_edit`).

External collaborators (the tiktoken tokenizer, the SHA-256 digest, the
UUIDv5 derivation, the embedding provider, and the vector index's
similarity function) are modelled as explicit function parameters; the
vector index itself is modelled as an association list keyed by point id
with insert-or-overwrite (upsert) semantics, and calls to it are recorded
in an explicit trace.  Machine integers of the Python source are modelled
as `Int` (Python ints are unbounded), string indices as `Int` with
Python's slicing semantics.
-/

/-! ## Python primitives -/

/-- Effective index of a Python slice bound `i` into a sequence of length
`len`: negative indices count from the end, and both directions clamp. -/
def pyIdx (len : Nat) (i : Int) : Nat :=
  if i < 0 then ((len : Int) + i).toNat else min i.toNat len

/-- Python's `l[a:b]` on a list. -/
def pySlice {α : Type} (l : List α) (a b : Int) : List α :=
  (l.take (pyIdx l.length b)).drop (pyIdx l.length a)

/-- `needle` is a prefix of `hay` (character lists). -/
def listPrefixOf : List Char → List Char → Bool
  | [], _ => true
  | _ :: _, [] => false
  | a :: as, b :: bs => a = b && listPrefixOf as bs

/-- `needle` occurs as a contiguous sublist of `hay` (character lists). -/
def listOccurs : List Char → List Char → Bool
  | needle, [] => needle.isEmpty
  | needle, hay@(_ :: hs) => listPrefixOf needle hay || listOccurs needle hs

/-- Python's substring test `needle in hay`. -/
def pyIn (needle hay : String) : Bool :=
  listOccurs needle.data hay.data

/-- Drop leading whitespace characters. -/
def dropWhileWs : List Char → List Char
  | [] => []
  | c :: cs => if c.isWhitespace then dropWhileWs cs else c :: cs

/-- Python's `str.strip()`: remove leading and trailing whitespace. -/
def pyStrip (s : String) : String :=
  String.mk (List.reverse (dropWhileWs (List.reverse (dropWhileWs s.data))))

/-- Python's `str.lower()` (ASCII case folding). -/
def pyLower (s : String) : String :=
  String.mk (s.data.map Char.toLower)

/-! ## Chunker (`app/kb/chunker.py`) -/

/-- `Chunk` (chunker.py lines 7–12): a text chunk with metadata.
Indices are the Python ints `start_idx`/`end_idx` of the window. -/
structure Chunk where
  content : String
  content_hash : String
  start_idx : Int
  end_idx : Int
  deriving DecidableEq, Repr

/-- The body of the `while start_idx < len(tokens)` loop shared by
`chunk_text` (lines 50–72, token windows) and `_chunk_by_chars`
(lines 82–97, character windows), over an abstract token type `α` with
decoder `decode`.  The digest `hashf` models `compute_content_hash`
(SHA-256 hexdigest of the content).  The structurally unbounded Python
loop is modelled with explicit fuel; `none` means the fuel ran out,
i.e. the source loop has not terminated within that many iterations. -/
def chunkLoop {α : Type} (hashf : String → String) (decode : List α → String)
    (tokens : List α) (chunk_size chunk_overlap : Int) :
    Nat → Int → List Chunk → Option (List Chunk)
  | 0, _, _ => none
  | fuel + 1, start_idx, chunks =>
    if start_idx < (tokens.length : Int) then
      -- end_idx = min(start_idx + chunk_size, len(tokens))
      let end_idx : Int := min (start_idx + chunk_size) (tokens.length : Int)
      -- decode(tokens[start_idx:end_idx])
      let ctext := decode (pySlice tokens start_idx end_idx)
      -- skip empty or whitespace-only chunks
      let chunks' := if pyStrip ctext ≠ "" then
          chunks ++ [⟨ctext, hashf ctext, start_idx, end_idx⟩]
        else chunks
      -- `start_idx += chunk_size - chunk_overlap`, then break when the
      -- window already reached the end of the stream
      if end_idx = (tokens.length : Int) then some chunks'
      else chunkLoop hashf decode tokens chunk_size chunk_overlap fuel
        (start_idx + (chunk_size - chunk_overlap)) chunks'
    else some chunks

/-- A tokenizer, modelling `tiktoken.get_encoding(...)`: `encode` maps text
to a token stream and `decode` maps a token window back to text. -/
structure Tokenizer where
  encode : String → List Nat
  decode : List Nat → String

/-- `_chunk_by_chars` (chunker.py lines 77–99): fallback character-based
chunking.  Python's per-character string slicing is the instance of the
window loop at `α := Char` with `decode := String.mk`.  Fuel
`text.length + 1` is an exact bound for every terminating execution of
the source loop (see `chunkLoop_isSome_of_overlap_lt`). -/
def chunk_by_chars (hashf : String → String) (text : String)
    (chunk_size chunk_overlap : Int) : Option (List Chunk) :=
  chunkLoop hashf String.mk text.data chunk_size chunk_overlap
    (text.length + 1) 0 []

/-- `chunk_text` (chunker.py lines 20–74).  `tok = none` models the
`except` branch where tiktoken is unavailable, which falls back to
character chunking with both parameters multiplied by 4. -/
def chunk_text (tok : Option Tokenizer) (hashf : String → String)
    (text : String) (chunk_size chunk_overlap : Int) : Option (List Chunk) :=
  match tok with
  | none => chunk_by_chars hashf text (chunk_size * 4) (chunk_overlap * 4)
  | some enc =>
    let tokens := enc.encode text
    chunkLoop hashf enc.decode tokens chunk_size chunk_overlap
      (tokens.length + 1) 0 []

/-- `deduplicate_chunks` (chunker.py lines 102–120), with the `seen_hashes`
set made explicit as the list of hashes already seen. -/
def dedupGo (seen : List String) : List Chunk → List Chunk
  | [] => []
  | c :: cs =>
    if c.content_hash ∈ seen then dedupGo seen cs
    else c :: dedupGo (c.content_hash :: seen) cs

/-- `deduplicate_chunks(chunks)`: drop every chunk whose `content_hash`
was already seen, keeping first occurrences. -/
def deduplicate_chunks (chunks : List Chunk) : List Chunk :=
  dedupGo [] chunks

/-! ### Deduplication lemmas -/

theorem dedupGo_sublist (seen : List String) (l : List Chunk) :
    (dedupGo seen l).Sublist l := by
  induction l generalizing seen with
  | nil => simp [dedupGo]
  | cons c cs ih =>
    by_cases h : c.content_hash ∈ seen
    · simpa [dedupGo, h] using List.Sublist.cons c (ih seen)
    · simpa [dedupGo, h] using List.Sublist.cons₂ c (ih (c.content_hash :: seen))

theorem mem_dedupGo {seen : List String} {l : List Chunk} {d : Chunk} :
    d ∈ dedupGo seen l ↔
      d.content_hash ∉ seen ∧
        l.find? (fun e => e.content_hash = d.content_hash) = some d := by
  induction l generalizing seen with
  | nil => simp [dedupGo]
  | cons c cs ih =>
    by_cases hc : c.content_hash ∈ seen
    · simp only [dedupGo, if_pos hc, ih]
      by_cases he : c.content_hash = d.content_hash
      · constructor
        · rintro ⟨hns, _⟩
          exact absurd (he ▸ hc) hns
        · rintro ⟨hns, hfind⟩
          rw [List.find?_cons_of_pos _ (by simp [he])] at hfind
          cases hfind
          exact absurd hc hns
      · rw [List.find?_cons_of_neg _ (by simp [he])]
    · simp only [dedupGo, if_neg hc, List.mem_cons]
      by_cases he : c.content_hash = d.content_hash
      · rw [List.find?_cons_of_pos _ (by simp [he])]
        constructor
        · rintro (rfl | hm)
          · exact ⟨hc, rfl⟩
          · rcases ih.mp hm with ⟨hns, _⟩
            exact absurd (by simp [he]) hns
        · rintro ⟨_, hd⟩
          cases hd
          exact Or.inl rfl
      · rw [List.find?_cons_of_neg _ (by simp [he])]
        constructor
        · rintro (rfl | hm)
          · exact absurd rfl he
          · rcases ih.mp hm with ⟨hns, hf⟩
            exact ⟨fun h => hns (List.mem_cons_of_mem _ h), hf⟩
        · rintro ⟨hns, hf⟩
          refine Or.inr (ih.mpr ⟨?_, hf⟩)
          intro hmem
          rcases List.mem_cons.mp hmem with h | h
          · exact he h.symm
          · exact hns h

theorem dedupGo_pairwise (seen : List String) (l : List Chunk) :
    (dedupGo seen l).Pairwise (fun a b => a.content_hash ≠ b.content_hash) := by
  induction l generalizing seen with
  | nil => simp [dedupGo]
  | cons c cs ih =>
    by_cases hc : c.content_hash ∈ seen
    · simpa [dedupGo, hc] using ih seen
    · simp only [dedupGo, if_neg hc]
      refine List.Pairwise.cons (fun d hd => ?_) (ih _)
      rcases mem_dedupGo.mp hd with ⟨hns, _⟩
      intro hEq
      exact hns (hEq ▸ List.mem_cons_self _ _)

/-! ### Chunk-loop lemmas -/

/-- Termination of the window loop whenever the window actually advances
(`chunk_overlap < chunk_size`): `tokens.length + 1` loop entries always
suffice, measured from any start position. -/
theorem chunkLoop_isSome_of_overlap_lt {α : Type} (hashf : String → String)
    (decode : List α → String) (tokens : List α) (size overlap : Int)
    (hlt : overlap < size) :
    ∀ (fuel : Nat) (start : Int) (acc : List Chunk), 0 ≤ start →
      tokens.length - start.toNat < fuel →
      (chunkLoop hashf decode tokens size overlap fuel start acc).isSome := by
  intro fuel
  induction fuel with
  | zero => intro start acc h0 hf; omega
  | succ f ih =>
    intro start acc h0 hf
    rw [chunkLoop]
    by_cases hg : start < (tokens.length : Int)
    · simp only [if_pos hg]
      by_cases he : min (start + size) (tokens.length : Int) = (tokens.length : Int)
      · simp [he]
      · simp only [if_neg he]
        exact ih (start + (size - overlap)) _ (by omega) (by omega)
    · simp [chunkLoop, hg]

/-- If the window never advances (`chunk_size - chunk_overlap = 0`) and the
first window already falls short of the end of the stream, the loop never
terminates: every amount of fuel is exhausted. -/
theorem chunkLoop_none_of_stuck {α : Type} (hashf : String → String)
    (decode : List α → String) (tokens : List α) (size overlap : Int)
    (hpos : (0 : Int) < tokens.length)
    (hend : min ((0 : Int) + size) (tokens.length : Int) ≠ (tokens.length : Int))
    (hstep : size - overlap = 0) :
    ∀ (fuel : Nat) (acc : List Chunk),
      chunkLoop hashf decode tokens size overlap fuel 0 acc = none := by
  intro fuel
  induction fuel with
  | zero => intro acc; rfl
  | succ f ih =>
    intro acc
    rw [chunkLoop]
    simp only [if_pos hpos, if_neg hend]
    rw [hstep]
    exact ih _

/-- Every chunk the loop appends carries the digest of its own content. -/
theorem chunkLoop_hash {α : Type} (hashf : String → String)
    (decode : List α → String) (tokens : List α) (size overlap : Int) :
    ∀ (fuel : Nat) (start : Int) (acc out : List Chunk),
      chunkLoop hashf decode tokens size overlap fuel start acc = some out →
      (∀ c ∈ acc, c.content_hash = hashf c.content) →
      ∀ c ∈ out, c.content_hash = hashf c.content := by
  intro fuel
  induction fuel with
  | zero => intro start acc out h; cases h
  | succ f ih =>
    intro start acc out h hacc
    rw [chunkLoop] at h
    by_cases hg : start < (tokens.length : Int)
    · simp only [if_pos hg] at h
      set ctext := decode (pySlice tokens start
        (min (start + size) (tokens.length : Int))) with hct
      have hacc' : ∀ c ∈ (if pyStrip ctext ≠ "" then
          acc ++ [⟨ctext, hashf ctext, start,
            min (start + size) (tokens.length : Int)⟩] else acc),
          c.content_hash = hashf c.content := by
        by_cases ht : pyStrip ctext ≠ ""
        · simp only [if_pos ht]
          intro c hc
          rcases List.mem_append.mp hc with h1 | h1
          · exact hacc c h1
          · simp only [List.mem_singleton] at h1
            subst h1; rfl
        · simpa [ht] using hacc
      by_cases he : min (start + size) (tokens.length : Int) = (tokens.length : Int)
      · simp only [if_pos he, Option.some.injEq] at h
        subst h; exact hacc'
      · simp only [if_neg he] at h
        exact ih _ _ _ h hacc'
    · simp only [if_neg hg, Option.some.injEq] at h
      subst h; exact hacc

/-- When the whole token stream fits in a single window
(`tokens.length ≤ chunk_size`) and the decoded text is not
whitespace-only, the loop emits exactly one chunk covering the stream. -/
theorem chunkLoop_single_window {α : Type} (hashf : String → String)
    (decode : List α → String) (tokens : List α) (size overlap : Int)
    (fuel : Nat) (hpos : 0 < tokens.length)
    (hfit : (tokens.length : Int) ≤ size) (hfuel : 0 < fuel)
    (htrim : pyStrip (decode tokens) ≠ "") :
    chunkLoop hashf decode tokens size overlap fuel 0 [] =
      some [⟨decode tokens, hashf (decode tokens), 0, (tokens.length : Int)⟩] := by
  obtain ⟨f, rfl⟩ : ∃ f, fuel = f + 1 := ⟨fuel - 1, by omega⟩
  rw [chunkLoop]
  have hg : (0 : Int) < tokens.length := by exact_mod_cast hpos
  have he : min size (tokens.length : Int) = (tokens.length : Int) :=
    min_eq_right hfit
  have h0 : pyIdx tokens.length 0 = 0 := by simp [pyIdx]
  have h1 : pyIdx tokens.length (tokens.length : Int) = tokens.length := by
    rw [pyIdx, if_neg (by omega)]
    simp
  have hslice : pySlice tokens 0 (tokens.length : Int) = tokens := by
    rw [pySlice, h0, h1]
    simp
  simp [hg, he, hfit, hslice, htrim]

/-! ## KB engine (`app/kb/retrieval.py`, `app/kb/client.py`,
`app/kb/embeddings.py`)

The Qdrant vector index is modelled as a list of points keyed by point
id with insert-or-overwrite semantics (`viUpsertOne`); the embedding
provider and the index's similarity scoring are abstract parameters.
Calls that leave the process are recorded in a `KBCall` trace. -/

/-- Payload of a stored point (retrieval.py lines 76–85). -/
structure KBPoint where
  workspace_id : String
  source : String
  title : Option String
  url : Option String
  tags : List String
  content : String
  content_hash : String
  created_at : String
  deriving DecidableEq, Repr

/-- A `PointStruct` sent to the index: stable id, vector, payload. -/
structure PointStruct where
  id : String
  vector : List Rat
  payload : KBPoint
  deriving DecidableEq, Repr

/-- The vector index's stored points. -/
abbrev VectorIndex := List PointStruct

/-- Upsert of one point: overwrite the point with the same id when
present, append otherwise (Qdrant upsert semantics). -/
def viUpsertOne (idx : VectorIndex) (p : PointStruct) : VectorIndex :=
  if idx.any (fun q => q.id = p.id) then
    idx.map (fun q => if q.id = p.id then p else q)
  else idx ++ [p]

/-- `client.upsert(collection_name, points)` (retrieval.py lines 95–98). -/
def viUpsert (idx : VectorIndex) (points : List PointStruct) : VectorIndex :=
  points.foldl viUpsertOne idx

/-- One outbound call of the ingestion path, in order of occurrence. -/
inductive KBCall where
  | ensure_collection (name : String)
  | embed_texts (texts : List String)
  | upsert_points (collection : String) (count : Nat)
  deriving DecidableEq, Repr

/-- `generate_embeddings` (embeddings.py lines 23–66): the provider call
is the parameter `embedBatch`; inputs are processed in batches of
`batch_size` (`range(0, len(texts), batch_size)`) whose results are
concatenated in order. -/
def generate_embeddings (embedBatch : List String → List (List Rat))
    (texts : List String) (batch_size : Nat) : List (List Rat) :=
  if texts = [] then []
  else
    ((List.range' 0 ((texts.length + batch_size - 1) / batch_size) batch_size).map
      (fun i => embedBatch ((texts.drop i).take batch_size))).flatten

/-- The stable point id (retrieval.py line 74):
`str(uuid.uuid5(uuid.NAMESPACE_DNS, chunk.content_hash))`, with the
UUIDv5 derivation at the fixed DNS namespace abstracted as `uuid5dns`. -/
def point_id (uuid5dns : String → String) (content_hash : String) : String :=
  uuid5dns content_hash

/-- `upsert_document` (retrieval.py lines 15–106).  Steps, in source
order: `ensure_collection_exists` (line 43 — before any chunking),
chunk (chunk_size 800, overlap 200), deduplicate, early return of zero
counts when nothing is left, else embed all chunk texts (batch size
100), build one point per chunk with the stable id, and upsert them in
one call.  Returns the statistics, the new index contents, and the
trace of outbound calls. -/
structure UpsertStats where
  chunks_total : Int
  chunks_uploaded : Int
  duplicates_skipped : Int
  deriving DecidableEq, Repr

def upsert_document (tok : Option Tokenizer) (hashf uuid5dns : String → String)
    (embedBatch : List String → List (List Rat)) (now : String)
    (file_content workspace_id source : String) (title url : Option String)
    (tags : List String) (collection_name : String) (idx : VectorIndex) :
    Option (UpsertStats × VectorIndex × List KBCall) :=
  match chunk_text tok hashf file_content 800 200 with
  | none => none
  | some chunks0 =>
    let original_count := chunks0.length
    let chunks := deduplicate_chunks chunks0
    let dedup_count := chunks.length
    if chunks = [] then
      some (⟨0, 0, 0⟩, idx, [KBCall.ensure_collection collection_name])
    else
      let chunk_texts := chunks.map (fun c => c.content)
      let embeddings := generate_embeddings embedBatch chunk_texts 100
      let points := (chunks.zip embeddings).map (fun ce =>
        PointStruct.mk (point_id uuid5dns ce.1.content_hash) ce.2
          ⟨workspace_id, source, title, url, tags, ce.1.content,
            ce.1.content_hash, now⟩)
      some (⟨original_count, dedup_count, original_count - dedup_count⟩,
        viUpsert idx points,
        [KBCall.ensure_collection collection_name,
         KBCall.embed_texts chunk_texts,
         KBCall.upsert_points collection_name points.length])

/-- A search hit as returned by the index: the point plus its score. -/
structure ScoredPoint where
  id : String
  vector : List Rat
  payload : KBPoint
  score : Rat
  deriving DecidableEq, Repr

/-- Insert into a list kept in descending score order. -/
def insertDesc (x : ScoredPoint) : List ScoredPoint → List ScoredPoint
  | [] => [x]
  | y :: ys => if y.score ≤ x.score then x :: y :: ys else y :: insertDesc x ys

/-- Sort hits by descending score. -/
def sortByScore : List ScoredPoint → List ScoredPoint
  | [] => []
  | x :: xs => insertDesc x (sortByScore xs)

/-- The index's `search(collection, query_vector, query_filter, limit)`:
score every point, keep exactly those whose payload `workspace_id`
equals the filter's `MatchValue` (the `Filter(must=[FieldCondition…])`
of retrieval.py lines 140–147), rank by descending score, truncate to
`limit`. -/
def viSearch (sim : List Rat → List Rat → Rat) (idx : VectorIndex)
    (query_vector : List Rat) (workspace_id : String) (limit : Nat) :
    List ScoredPoint :=
  (sortByScore ((idx.filter
      (fun p => p.payload.workspace_id = workspace_id)).map
    (fun p => ⟨p.id, p.vector, p.payload, sim query_vector p.vector⟩))).take limit

/-- `KBSearchResult` (models.py), as built in retrieval.py lines 153–165. -/
structure KBSearchResult where
  chunk_id : String
  content : String
  score : Rat
  workspace_id : String
  source : String
  title : Option String
  url : Option String
  tags : List String
  deriving DecidableEq, Repr

/-- `search_kb` (retrieval.py lines 109–168): embed the query, search the
index with the exact-match workspace filter and `limit = k`, and map
each hit's payload to a `KBSearchResult`.  `with_vectors` only controls
whether the index sends raw vectors back; no result field depends on
it. -/
def search_kb (embedOne : String → List Rat)
    (sim : List Rat → List Rat → Rat) (idx : VectorIndex)
    (query workspace_id : String) (k : Nat) (with_vectors : Bool) :
    List KBSearchResult :=
  let query_embedding := embedOne query
  let hits := viSearch sim idx query_embedding workspace_id k
  hits.map (fun hit =>
    ⟨hit.id, hit.payload.content, hit.score, hit.payload.workspace_id,
     hit.payload.source, hit.payload.title, hit.payload.url,
     hit.payload.tags⟩)

/-! ### Vector-index lemmas -/

theorem viUpsertOne_length_of_mem {idx : VectorIndex} {p : PointStruct}
    (h : idx.any (fun q => q.id = p.id)) :
    (viUpsertOne idx p).length = idx.length := by
  simp [viUpsertOne, h]

theorem mem_id_viUpsertOne_self (idx : VectorIndex) (p : PointStruct) :
    (viUpsertOne idx p).any (fun q => q.id = p.id) := by
  by_cases h : idx.any (fun q => q.id = p.id)
  · simp only [viUpsertOne, if_pos h]
    rcases List.any_eq_true.mp h with ⟨q, hq, hid⟩
    have hqp : q.id = p.id := of_decide_eq_true hid
    refine List.any_eq_true.mpr ⟨p, List.mem_map.mpr ⟨q, hq, ?_⟩, by simp⟩
    simp [hqp]
  · simp only [viUpsertOne, if_neg h]
    exact List.any_eq_true.mpr ⟨p, by simp, by simp⟩

theorem mem_id_viUpsertOne_of_mem {idx : VectorIndex} {i : String}
    (p : PointStruct) (h : idx.any (fun q => q.id = i)) :
    (viUpsertOne idx p).any (fun q => q.id = i) := by
  rcases List.any_eq_true.mp h with ⟨q, hq, hid⟩
  by_cases hm : idx.any (fun q => q.id = p.id)
  · simp only [viUpsertOne, if_pos hm]
    by_cases hqp : q.id = p.id
    · refine List.any_eq_true.mpr ⟨p, List.mem_map.mpr ⟨q, hq, by simp [hqp]⟩, ?_⟩
      have : p.id = i := by rw [← hqp]; exact of_decide_eq_true hid
      simp [this]
    · exact List.any_eq_true.mpr ⟨q, List.mem_map.mpr ⟨q, hq, by simp [hqp]⟩, hid⟩
  · simp only [viUpsertOne, if_neg hm]
    exact List.any_eq_true.mpr ⟨q, List.mem_append_left _ hq, hid⟩

/-- Upserting a batch whose ids are all already present never changes the
number of stored points (overwrite, not append). -/
theorem viUpsert_length_of_all_mem (points : List PointStruct) :
    ∀ idx : VectorIndex,
      (∀ p ∈ points, idx.any (fun q => q.id = p.id)) →
      (viUpsert idx points).length = idx.length := by
  induction points with
  | nil => intro idx _; rfl
  | cons p ps ih =>
    intro idx hall
    have hp := hall p (List.mem_cons_self _ _)
    have hlen := viUpsertOne_length_of_mem hp
    have hrest : ∀ q ∈ ps, (viUpsertOne idx p).any (fun r => r.id = q.id) :=
      fun q hq => mem_id_viUpsertOne_of_mem p (hall q (List.mem_cons_of_mem _ hq))
    calc (viUpsert (viUpsertOne idx p) ps).length
        = (viUpsertOne idx p).length := ih _ hrest
      _ = idx.length := hlen

/-- Presence of an id persists through any batch of upserts. -/
theorem viUpsert_preserves_id_mem {i : String} (points : List PointStruct) :
    ∀ idx : VectorIndex, idx.any (fun q => q.id = i) →
      (viUpsert idx points).any (fun q => q.id = i) := by
  induction points with
  | nil => intro idx h; exact h
  | cons p ps ih =>
    intro idx h
    exact ih _ (mem_id_viUpsertOne_of_mem p h)

/-- After upserting a batch, every id of the batch is present. -/
theorem viUpsert_ids_present (points : List PointStruct) :
    ∀ idx : VectorIndex, ∀ p ∈ points,
      (viUpsert idx points).any (fun q => q.id = p.id) := by
  induction points with
  | nil => intro idx p hp; cases hp
  | cons p ps ih =>
    intro idx q hq
    rcases List.mem_cons.mp hq with rfl | hq'
    · exact viUpsert_preserves_id_mem ps _ (mem_id_viUpsertOne_self idx q)
    · exact ih _ q hq'

theorem mem_insertDesc {x a : ScoredPoint} {l : List ScoredPoint} :
    a ∈ insertDesc x l ↔ a = x ∨ a ∈ l := by
  induction l with
  | nil => simp [insertDesc]
  | cons y ys ih =>
    by_cases h : y.score ≤ x.score
    · simp [insertDesc, h]
    · simp only [insertDesc, if_neg h, List.mem_cons, ih]
      tauto

theorem mem_sortByScore {a : ScoredPoint} {l : List ScoredPoint} :
    a ∈ sortByScore l ↔ a ∈ l := by
  induction l with
  | nil => simp [sortByScore]
  | cons x xs ih => simp [sortByScore, mem_insertDesc, ih]

/-! ## Pipeline stages (`app/agents/reploom_crew.py`) -/

/-- The violation scan of `policy_guard_node` (reploom_crew.py lines
255–281): lower-case the draft once, then for each blocklist phrase
strip and lower-case it, and when the cleaned phrase is non-empty and
occurs in the lowered draft, append one violation naming the stripped
phrase.  The loop is the `foldl` over the blocklist with the
`violations` accumulator. -/
def policy_guard_node (draft_html : String) (blocklist : List String) :
    List String :=
  let draft_lower := pyLower draft_html
  blocklist.foldl (fun violations phrase =>
    let phrase_clean := pyLower (pyStrip phrase)
    if phrase_clean ≠ "" && pyIn phrase_clean draft_lower then
      violations ++ ["Blocklisted phrase detected: '" ++ pyStrip phrase ++ "'"]
    else violations) []

/-- `should_halt` (reploom_crew.py lines 300–304): route to `"halt"` when
the state's `violations` list is truthy (non-empty), else `"continue"`. -/
def should_halt (violations : List String) : String :=
  if violations.isEmpty then "continue" else "halt"

/-- A JSON value, as produced by `json.loads` on the classifier's LLM
response (numbers as rationals). -/
inductive JsonVal where
  | null
  | bool (b : Bool)
  | num (q : Rat)
  | str (s : String)
  | arr (elems : List JsonVal)
  | obj (fields : List (String × JsonVal))

/-- Python `dict.get(key, default)` on a parsed JSON object. -/
def jsonGet (fields : List (String × JsonVal)) (key : String)
    (default : JsonVal) : JsonVal :=
  match fields.find? (fun kv => kv.1 = key) with
  | some kv => kv.2
  | none => default

/-- The parse-and-default step of `classifier_node` (reploom_crew.py
lines 96–104).  `json.loads` of the LLM response is modelled by the
`parsed` argument: `.error` when the response is not valid JSON.  A
successful parse to anything but an object makes `result.get` raise,
which the `except` catches, so only the object case reads the fields;
every other path yields `("other", 0.5)`. -/
def classifier_parse (parsed : Except String JsonVal) : JsonVal × JsonVal :=
  match parsed with
  | .ok (.obj fields) =>
    (jsonGet fields "intent" (.str "other"),
     jsonGet fields "confidence" (.num (1/2)))
  | _ => (.str "other", .num (1/2))

/-- The fixed closed category set of the classifier
(`Literal["support", "cs", "exec", "other"]`). -/
def intentCategories : List String := ["support", "cs", "exec", "other"]

/-! ## Review state machine (`app/api/routes/reploom.py` +
`app/models/draft_reviews.py`) -/

/-- `DraftReview` (draft_reviews.py lines 9–60), restricted to the fields
the review actions read or write; timestamps are abstract instants. -/
structure DraftReview where
  user_id : String
  thread_id : String
  draft_html : String
  draft_version : Int
  violations : List String
  status : String
  feedback : Option String
  edit_notes : Option String
  updated_at : Nat
  reviewed_at : Option Nat
  deriving DecidableEq, Repr

/-- `approve_review` (reploom.py lines 592–654), on a review already
fetched from the store: after the ownership check, unconditionally set
`status = "approved"`, record the feedback and both timestamps.
`.error 403` models the `HTTPException(status_code=403)`. -/
def approve_review (user_id : String) (feedback : Option String) (now : Nat)
    (review : DraftReview) : Except Nat DraftReview :=
  if review.user_id ≠ user_id then .error 403
  else .ok { review with
    status := "approved"
    feedback := feedback
    reviewed_at := some now
    updated_at := now }

/-- `reject_review` (reploom.py lines 657–719): symmetric to approval,
setting `status = "rejected"`. -/
def reject_review (user_id : String) (feedback : Option String) (now : Nat)
    (review : DraftReview) : Except Nat DraftReview :=
  if review.user_id ≠ user_id then .error 403
  else .ok { review with
    status := "rejected"
    feedback := feedback
    reviewed_at := some now
    updated_at := now }

/-- `request_edit` (reploom.py lines 722–797): after the ownership check,
replace the draft, record the notes, set `status = "editing"`, increment
`draft_version`, and clear `violations` (the policy re-check is the
stubbed-out TODO of lines 759–765, which always leaves `violations`
empty). -/
def request_edit (user_id : String) (draft_html : String)
    (edit_notes : Option String) (now : Nat) (review : DraftReview) :
    Except Nat DraftReview :=
  if review.user_id ≠ user_id then .error 403
  else .ok { review with
    draft_html := draft_html
    edit_notes := edit_notes
    status := "editing"
    draft_version := review.draft_version + 1
    updated_at := now
    violations := [] }

/-! ## Concrete collaborator instances (for closed evaluations) -/

/-- A concrete tokenizer instance: one token per character. -/
def charTok : Tokenizer :=
  ⟨fun s => s.data.map Char.toNat, fun l => String.mk (l.map Char.ofNat)⟩

/-- A concrete digest stand-in used to instantiate the abstract
`compute_content_hash` parameter in closed evaluations. -/
def demoHash (s : String) : String := "sha256:" ++ s

/-! ## Claim C1 — Policy Guard -/

/-- The loop of `policy_guard_node` as a `filterMap`. -/
theorem policy_guard_foldl_eq (draft_lower : String) :
    ∀ (blocklist : List String) (acc : List String),
      blocklist.foldl (fun violations phrase =>
        if pyLower (pyStrip phrase) ≠ "" && pyIn (pyLower (pyStrip phrase)) draft_lower then
          violations ++ ["Blocklisted phrase detected: '" ++ pyStrip phrase ++ "'"]
        else violations) acc =
      acc ++ blocklist.filterMap (fun phrase =>
        if pyLower (pyStrip phrase) ≠ "" && pyIn (pyLower (pyStrip phrase)) draft_lower then
          some ("Blocklisted phrase detected: '" ++ pyStrip phrase ++ "'")
        else none) := by
  intro blocklist
  induction blocklist with
  | nil => intro acc; simp
  | cons p ps ih =>
    intro acc
    by_cases hp : pyLower (pyStrip p) ≠ "" && pyIn (pyLower (pyStrip p)) draft_lower
    · simp only [List.foldl_cons, List.filterMap_cons, if_pos hp, ih]
      simp
    · simp only [List.foldl_cons, List.filterMap_cons, if_neg hp, ih]

/-- The violation list exactly as claim C1 words it: one entry, naming the
entry itself, per non-empty blocklist entry that occurs case-insensitively
as a substring of the draft. -/
def c1_claimed_violations (draft_html : String) (blocklist : List String) :
    List String :=
  blocklist.filterMap (fun phrase =>
    if phrase ≠ "" && pyIn (pyLower phrase) (pyLower draft_html) then
      some ("Blocklisted phrase detected: '" ++ phrase ++ "'")
    else none)

/-- C1 (counterexample): the code matches and reports the *stripped*
blocklist entry, not the entry itself.  For draft `"free trial!"` and the
whitespace-padded entry `" free trial "`, the code records one violation
naming `free trial`, while the claim's description — which matches the
raw entry — predicts none (`" free trial "`, with its double space when
embedded, does not occur in `"free trial!"`). -/
theorem policy_guard_claim_false_on_padded_entry :
    policy_guard_node "free trial!" [" free trial "] =
      ["Blocklisted phrase detected: 'free trial'"] ∧
    c1_claimed_violations "free trial!" [" free trial "] = [] := by
  constructor <;> decide

/-- C1 (amended): for every draft and blocklist, `violations` holds exactly
one entry `Blocklisted phrase detected: '<phrase>'` for each blocklist
entry whose stripped, lower-cased form is non-empty and occurs as a
substring of the lower-cased draft, naming the stripped entry, in
blocklist order; `violations` is empty exactly when no entry matches; and
`should_halt` routes to `"halt"` iff `violations` is non-empty and to
`"continue"` otherwise. -/
theorem policy_guard_spec (draft_html : String) (blocklist : List String) :
    policy_guard_node draft_html blocklist =
      blocklist.filterMap (fun phrase =>
        if pyLower (pyStrip phrase) ≠ "" &&
            pyIn (pyLower (pyStrip phrase)) (pyLower draft_html) then
          some ("Blocklisted phrase detected: '" ++ pyStrip phrase ++ "'")
        else none) ∧
    (policy_guard_node draft_html blocklist = [] ↔
      ∀ phrase ∈ blocklist,
        ¬(pyLower (pyStrip phrase) ≠ "" &&
          pyIn (pyLower (pyStrip phrase)) (pyLower draft_html)) = true) ∧
    (should_halt (policy_guard_node draft_html blocklist) = "halt" ↔
      policy_guard_node draft_html blocklist ≠ []) ∧
    (should_halt (policy_guard_node draft_html blocklist) = "continue" ↔
      policy_guard_node draft_html blocklist = []) := by
  have heq : policy_guard_node draft_html blocklist =
      blocklist.filterMap (fun phrase =>
        if pyLower (pyStrip phrase) ≠ "" &&
            pyIn (pyLower (pyStrip phrase)) (pyLower draft_html) then
          some ("Blocklisted phrase detected: '" ++ pyStrip phrase ++ "'")
        else none) := by
    rw [policy_guard_node]
    exact (policy_guard_foldl_eq (pyLower draft_html) blocklist []).trans
      (by simp)
  refine ⟨heq, ?_, ?_, ?_⟩
  · rw [heq, List.filterMap_eq_nil]
    constructor
    · intro h phrase hp
      have := h phrase hp
      intro hcond
      rw [if_pos hcond] at this
      cases this
    · intro h phrase hp
      rw [if_neg (h phrase hp)]
  · rw [should_halt]
    rcases hv : policy_guard_node draft_html blocklist with _ | ⟨v, vs⟩
    · simp
    · simp
  · rw [should_halt]
    rcases hv : policy_guard_node draft_html blocklist with _ | ⟨v, vs⟩
    · simp
    · simp

/-- Closed instance of `policy_guard_spec`: one matching phrase halts. -/
theorem policy_guard_spec_witness :
    should_halt (policy_guard_node "<p>Enjoy our free trial!</p>"
      ["free trial", "money back guarantee"]) = "halt" := by
  have h := policy_guard_spec "<p>Enjoy our free trial!</p>"
    ["free trial", "money back guarantee"]
  exact h.2.2.1.mpr (by rw [h.1]; decide)

/-! ## Claim C9 — Deduplication -/

/-- C9: `deduplicate_chunks` returns a subsequence of its input (original
relative order, length at most the input's), no two of whose elements
share a `content_hash`; an element is kept exactly when it is the first
occurrence of its `content_hash`, and for every input chunk the first
occurrence of its `content_hash` is kept. -/
theorem deduplicate_chunks_spec (chunks : List Chunk) :
    (deduplicate_chunks chunks).Sublist chunks ∧
    (deduplicate_chunks chunks).length ≤ chunks.length ∧
    (deduplicate_chunks chunks).Pairwise
      (fun a b => a.content_hash ≠ b.content_hash) ∧
    (∀ d : Chunk, d ∈ deduplicate_chunks chunks ↔
      chunks.find? (fun e => e.content_hash = d.content_hash) = some d) ∧
    (∀ c ∈ chunks, ∃ d,
      chunks.find? (fun e => e.content_hash = c.content_hash) = some d ∧
      d ∈ deduplicate_chunks chunks) := by
  have hsub := dedupGo_sublist [] chunks
  have hmem : ∀ d : Chunk, d ∈ deduplicate_chunks chunks ↔
      chunks.find? (fun e => e.content_hash = d.content_hash) = some d := by
    intro d
    rw [deduplicate_chunks, mem_dedupGo]
    simp
  refine ⟨hsub, hsub.length_le, dedupGo_pairwise [] chunks, hmem, ?_⟩
  intro c hc
  have hex : (chunks.find?
      (fun e => e.content_hash = c.content_hash)).isSome := by
    rw [List.find?_isSome]
    exact ⟨c, hc, by simp⟩
  rcases Option.isSome_iff_exists.mp hex with ⟨d, hd⟩
  refine ⟨d, hd, ?_⟩
  have hdc : d.content_hash = c.content_hash := by
    simpa using List.find?_some hd
  rw [hmem d]
  simpa [hdc] using hd

/-- Closed instance of `deduplicate_chunks_spec` at a list with a
duplicated hash: the first occurrence is kept. -/
theorem deduplicate_chunks_spec_witness :
    ∃ d, [Chunk.mk "A" "h1" 0 1, Chunk.mk "B" "h2" 1 2,
          Chunk.mk "A2" "h1" 2 3].find?
        (fun e => e.content_hash = (Chunk.mk "A2" "h1" 2 3).content_hash) =
        some d ∧
      d ∈ deduplicate_chunks [Chunk.mk "A" "h1" 0 1, Chunk.mk "B" "h2" 1 2,
        Chunk.mk "A2" "h1" 2 3] :=
  (deduplicate_chunks_spec _).2.2.2.2 (Chunk.mk "A2" "h1" 2 3) (by decide)

/-! ## Claim C2 — Review state machine -/

/-- A rejected review, as stored by the review endpoints. -/
def c2_rejected_review : DraftReview :=
  ⟨"auth0|u1", "thread-1", "<p>old</p>", 1, [], "rejected", none, none, 0, none⟩

/-- C2 (counterexample): `approve_review` has no precondition on the
current status — approving a review whose status is `"rejected"`
succeeds and overwrites the status with `"approved"`, so `"rejected"`
is not terminal and approval is not restricted to
`"pending"`/`"editing"`. -/
theorem approve_review_succeeds_from_rejected :
    c2_rejected_review.status = "rejected" ∧
    approve_review "auth0|u1" none 7 c2_rejected_review =
      .ok { c2_rejected_review with
        status := "approved", reviewed_at := some 7, updated_at := 7 } :=
  ⟨rfl, rfl⟩

/-- C2 (amended): for the record's owner, `approve_review` sets
`status = "approved"` (recording feedback and `reviewed_at`) from *any*
current status, `reject_review` likewise sets `"rejected"` from any
status — no status precondition is checked, so `"approved"`/`"rejected"`
are not terminal; no action ever sets status back to `"pending"`; and
`request_edit` from any status sets `"editing"`, replaces `draft_html`,
and increments `draft_version` by exactly one per call. -/
theorem review_actions_spec (user_id : String) (feedback : Option String)
    (new_draft : String) (notes : Option String) (now : Nat)
    (review : DraftReview) (hown : review.user_id = user_id) :
    approve_review user_id feedback now review =
      .ok { review with
            status := "approved"
            feedback := feedback
            reviewed_at := some now
            updated_at := now } ∧
    reject_review user_id feedback now review =
      .ok { review with
            status := "rejected"
            feedback := feedback
            reviewed_at := some now
            updated_at := now } ∧
    request_edit user_id new_draft notes now review =
      .ok { review with
            draft_html := new_draft
            edit_notes := notes
            status := "editing"
            draft_version := review.draft_version + 1
            updated_at := now
            violations := [] } := by
  refine ⟨?_, ?_, ?_⟩ <;>
    simp [approve_review, reject_review, request_edit, hown]

/-- Closed instance of `review_actions_spec`: the §8 lifecycle — a
pending review, one `request_edit` (version 1 → 2, status `"editing"`),
then `approve` (status `"approved"`, `reviewed_at` set). -/
theorem review_actions_spec_witness :
    request_edit "u" "<p>v2</p>" (some "tweak") 3
        ⟨"u", "t", "<p>v1</p>", 1, [], "pending", none, none, 0, none⟩ =
      .ok ⟨"u", "t", "<p>v2</p>", 2, [], "editing", none, some "tweak",
        3, none⟩ ∧
    approve_review "u" (some "lgtm") 4
        ⟨"u", "t", "<p>v2</p>", 2, [], "editing", none, some "tweak",
          3, none⟩ =
      .ok ⟨"u", "t", "<p>v2</p>", 2, [], "approved", some "lgtm",
        some "tweak", 4, some 4⟩ := by
  constructor
  · exact (review_actions_spec "u" none "<p>v2</p>" (some "tweak") 3
      ⟨"u", "t", "<p>v1</p>", 1, [], "pending", none, none, 0, none⟩
      rfl).2.2
  · exact (review_actions_spec "u" (some "lgtm") "x" none 4
      ⟨"u", "t", "<p>v2</p>", 2, [], "editing", none, some "tweak",
        3, none⟩ rfl).1

/-! ## Claim C3 — Classifier closed category set -/

/-- C3: the classifier's parse step substitutes `("other", 0.5)` on a
parse failure, but performs no membership check on a successfully parsed
`intent`: the response `{"intent": "spam", "confidence": 0.9}` parses
and flows through unchanged even though `"spam"` is outside
`intentCategories` — contradicting both the claim and the function's own
`Literal["support", "cs", "exec", "other"]` annotation and docstring. -/
theorem classifier_intent_not_validated :
    classifier_parse (.ok (.obj [("intent", .str "spam"),
        ("confidence", .num (9/10))])) =
      (.str "spam", .num (9/10)) ∧
    (JsonVal.str "spam" ∉ intentCategories.map JsonVal.str) ∧
    classifier_parse (.error "Expecting value: line 1 column 1") =
      (.str "other", .num (1/2)) := by
  refine ⟨rfl, ?_, rfl⟩
  intro h
  rcases List.mem_map.mp h with ⟨s, hs, hEq⟩
  cases hEq
  simp [intentCategories] at hs

/-! ## Claim C4 — Chunker termination -/

/-- C4 (counterexample): with `chunk_size = chunk_overlap` (here both 1)
on a 2-token stream, the window never advances and never reaches the end
of the stream, so the source loop runs forever: every fuel bound is
exhausted, and in particular `chunk_text`'s canonical bound fails.  The
claim's "for every choice of chunk_size and chunk_overlap" is false. -/
theorem chunk_text_diverges_when_overlap_eq_size :
    chunk_text (some charTok) demoHash "ab" 1 1 = none ∧
    ∀ fuel : Nat,
      chunkLoop demoHash charTok.decode (charTok.encode "ab") 1 1
        fuel 0 [] = none := by
  have h := chunkLoop_none_of_stuck demoHash charTok.decode
    (charTok.encode "ab") 1 1 (by decide) (by decide) (by decide)
  exact ⟨h _ _, fun fuel => h fuel []⟩

/-- C4 (amended): whenever `chunk_overlap < chunk_size` — in particular
at the production defaults 800/200 — the window advances each step and
both the token loop and the character-fallback loop terminate within the
canonical `length + 1` iteration bound, so `chunk_text` returns a
result on either path. -/
theorem chunk_text_terminates (tok : Option Tokenizer)
    (hashf : String → String) (text : String) (chunk_size chunk_overlap : Int)
    (hlt : chunk_overlap < chunk_size) :
    (chunk_text tok hashf text chunk_size chunk_overlap).isSome := by
  cases tok with
  | none =>
    rw [chunk_text, chunk_by_chars]
    refine chunkLoop_isSome_of_overlap_lt _ _ _ _ _ (by omega) _ 0 [] le_rfl ?_
    have hlen : text.data.length = text.length := rfl
    omega
  | some enc =>
    rw [chunk_text]
    exact chunkLoop_isSome_of_overlap_lt _ _ _ _ _ hlt _ 0 [] le_rfl (by omega)

/-- Closed instance of `chunk_text_terminates` at the defaults 800/200. -/
theorem chunk_text_terminates_witness :
    (chunk_text (some charTok) demoHash "hello world" 800 200).isSome :=
  chunk_text_terminates (some charTok) demoHash "hello world" 800 200
    (by norm_num)

/-! ## Claim C7 — Chunker edge cases -/

/-- C7 (counterexample): a non-empty but whitespace-only input shorter
than `chunk_size` yields the *empty* sequence, not one chunk equal to
the input — the decoded window is skipped by the whitespace check. -/
theorem chunk_text_whitespace_only_yields_no_chunk :
    (" " ≠ "") ∧ chunk_text (some charTok) demoHash " " 800 200 = some [] :=
  ⟨by decide, by decide⟩

/-- C7 (amended): empty input yields the empty sequence; and every input
that is not whitespace-only, whose token stream is non-empty and shorter
than `chunk_size`, yields exactly one chunk whose content is the whole
input (given that the tokenizer round-trips the input). -/
theorem chunk_text_edge_cases (t : Tokenizer) (hashf : String → String)
    (chunk_size chunk_overlap : Int) :
    (t.encode "" = [] →
      chunk_text (some t) hashf "" chunk_size chunk_overlap = some []) ∧
    (∀ text : String, 0 < (t.encode text).length →
      ((t.encode text).length : Int) < chunk_size →
      t.decode (t.encode text) = text → pyStrip text ≠ "" →
      chunk_text (some t) hashf text chunk_size chunk_overlap =
        some [⟨text, hashf text, 0, ((t.encode text).length : Int)⟩]) := by
  constructor
  · intro hemp
    rw [chunk_text]
    simp only [hemp]
    rfl
  · intro text hpos hfit hdec htrim
    rw [chunk_text]
    have := chunkLoop_single_window hashf t.decode (t.encode text)
      chunk_size chunk_overlap ((t.encode text).length + 1) hpos
      (le_of_lt hfit) (by omega) (by rw [hdec]; exact htrim)
    rw [this, hdec]

/-- Closed instance of `chunk_text_edge_cases`: empty input, and the
two-character input `"ab"` under the defaults 800/200. -/
theorem chunk_text_edge_cases_witness :
    chunk_text (some charTok) demoHash "" 800 200 = some [] ∧
    chunk_text (some charTok) demoHash "ab" 800 200 =
      some [⟨"ab", demoHash "ab", 0, 2⟩] := by
  constructor
  · exact (chunk_text_edge_cases charTok demoHash 800 200).1 (by decide)
  · exact (chunk_text_edge_cases charTok demoHash 800 200).2 "ab"
      (by decide) (by decide) (by decide) (by decide)

/-! ## Claim C5 — Ingestion short-circuit -/

/-- Concrete UUIDv5 stand-in for closed evaluations. -/
def demoUuid (s : String) : String := "uuid5:" ++ s

/-- Concrete embedding-provider stand-in for closed evaluations. -/
def demoEmbed (texts : List String) : List (List Rat) :=
  texts.map (fun _ => [1])

/-- C5 (counterexample): `ensure_collection_exists` runs at line 43,
*before* chunking, so even an input that chunks to nothing contacts the
Vector Index once (collection lookup/creation).  The zero counts and the
absence of embed/upsert calls do hold, but the call trace is not empty. -/
theorem upsert_document_empty_still_ensures_collection :
    upsert_document (some charTok) demoHash demoUuid demoEmbed
        "2024-01-01T00:00:00" "" "ws-a" "upload" none none [] "kb_documents"
        [] =
      some (⟨0, 0, 0⟩, [], [KBCall.ensure_collection "kb_documents"]) ∧
    [KBCall.ensure_collection "kb_documents"] ≠ ([] : List KBCall) := by
  constructor
  · decide
  · decide

/-- C5 (amended): whenever the chunked-and-deduplicated chunk set is
empty, `upsert_document` returns zero counts, leaves the index contents
untouched, and makes no embedding call and no upsert call — but it does
make the one `ensure_collection` call, which precedes chunking. -/
theorem upsert_document_empty_zero_counts (tok : Option Tokenizer)
    (hashf uuid5dns : String → String)
    (embedBatch : List String → List (List Rat)) (now : String)
    (file_content workspace_id source : String) (title url : Option String)
    (tags : List String) (collection_name : String) (idx : VectorIndex)
    (cs : List Chunk)
    (hchunks : chunk_text tok hashf file_content 800 200 = some cs)
    (hded : deduplicate_chunks cs = []) :
    upsert_document tok hashf uuid5dns embedBatch now file_content
        workspace_id source title url tags collection_name idx =
      some (⟨0, 0, 0⟩, idx, [KBCall.ensure_collection collection_name]) := by
  rw [upsert_document, hchunks]
  simp [hded]

/-- Closed instance of `upsert_document_empty_zero_counts`: a
whitespace-only document over a non-empty index. -/
theorem upsert_document_empty_zero_counts_witness :
    upsert_document (some charTok) demoHash demoUuid demoEmbed "t0" "   "
        "ws-a" "upload" none none [] "kb_documents"
        [⟨"id0", [1], ⟨"ws-b", "upload", none, none, [], "x", "hx", "t"⟩⟩] =
      some (⟨0, 0, 0⟩,
        [⟨"id0", [1], ⟨"ws-b", "upload", none, none, [], "x", "hx", "t"⟩⟩],
        [KBCall.ensure_collection "kb_documents"]) :=
  upsert_document_empty_zero_counts (some charTok) demoHash demoUuid
    demoEmbed "t0" "   " "ws-a" "upload" none none [] "kb_documents"
    [⟨"id0", [1], ⟨"ws-b", "upload", none, none, [], "x", "hx", "t"⟩⟩]
    [] (by decide) rfl

/-! ## Claim C10 — Ingestion statistics invariant -/

/-- C10: whenever `upsert_document` returns, the statistics satisfy
`chunks_total = chunks_uploaded + duplicates_skipped`, all three counts
are non-negative, and `chunks_uploaded` is the number of chunks that
survive deduplication. -/
theorem upsert_document_stats (tok : Option Tokenizer)
    (hashf uuid5dns : String → String)
    (embedBatch : List String → List (List Rat)) (now : String)
    (file_content workspace_id source : String) (title url : Option String)
    (tags : List String) (collection_name : String) (idx : VectorIndex)
    (stats : UpsertStats) (idx' : VectorIndex) (trace : List KBCall)
    (cs : List Chunk)
    (hchunks : chunk_text tok hashf file_content 800 200 = some cs)
    (hrun : upsert_document tok hashf uuid5dns embedBatch now file_content
        workspace_id source title url tags collection_name idx =
      some (stats, idx', trace)) :
    stats.chunks_total = stats.chunks_uploaded + stats.duplicates_skipped ∧
    0 ≤ stats.chunks_total ∧ 0 ≤ stats.chunks_uploaded ∧
    0 ≤ stats.duplicates_skipped ∧
    stats.chunks_uploaded = ((deduplicate_chunks cs).length : Int) := by
  have hle : (deduplicate_chunks cs).length ≤ cs.length :=
    (dedupGo_sublist [] cs).length_le
  rw [upsert_document, hchunks] at hrun
  by_cases hd : deduplicate_chunks cs = []
  · simp only [hd, if_pos rfl, Option.some.injEq, Prod.mk.injEq] at hrun
    obtain ⟨rfl, -, -⟩ := hrun
    simp [hd]
  · simp only [if_neg hd, Option.some.injEq, Prod.mk.injEq] at hrun
    obtain ⟨rfl, -, -⟩ := hrun
    refine ⟨by push_cast; ring, by positivity, by positivity, ?_, rfl⟩
    simp only [sub_nonneg]
    exact_mod_cast hle

/-- Closed instance of `upsert_document_stats`: a one-chunk document. -/
theorem upsert_document_stats_witness :
    ∃ stats : UpsertStats, ∃ idx' : VectorIndex, ∃ trace : List KBCall,
      upsert_document (some charTok) demoHash demoUuid demoEmbed "t0" "ab"
          "ws-a" "upload" none none [] "kb" [] = some (stats, idx', trace) ∧
      stats.chunks_total = stats.chunks_uploaded + stats.duplicates_skipped := by
  have hrun : upsert_document (some charTok) demoHash demoUuid demoEmbed
      "t0" "ab" "ws-a" "upload" none none [] "kb" [] =
      some (⟨1, 1, 0⟩,
        [⟨"uuid5:sha256:ab", [1],
          ⟨"ws-a", "upload", none, none, [], "ab", "sha256:ab", "t0"⟩⟩],
        [KBCall.ensure_collection "kb", KBCall.embed_texts ["ab"],
         KBCall.upsert_points "kb" 1]) := by decide
  exact ⟨_, _, _, hrun,
    (upsert_document_stats (some charTok) demoHash demoUuid demoEmbed "t0"
      "ab" "ws-a" "upload" none none [] "kb" [] ⟨1, 1, 0⟩
      [⟨"uuid5:sha256:ab", [1],
        ⟨"ws-a", "upload", none, none, [], "ab", "sha256:ab", "t0"⟩⟩]
      [KBCall.ensure_collection "kb", KBCall.embed_texts ["ab"],
       KBCall.upsert_points "kb" 1]
      [⟨"ab", "sha256:ab", 0, 2⟩] (by decide) hrun).1⟩

/-! ## Claim C8 — Stable ids and idempotent ingestion -/

/-- Chunks produced by `chunk_text` always carry the digest of their own
content, on either tokenizer path. -/
theorem chunk_text_hash_of_content (tok : Option Tokenizer)
    (hashf : String → String) (text : String) (chunk_size chunk_overlap : Int)
    (cs : List Chunk)
    (h : chunk_text tok hashf text chunk_size chunk_overlap = some cs) :
    ∀ c ∈ cs, c.content_hash = hashf c.content := by
  cases tok with
  | none =>
    rw [chunk_text, chunk_by_chars] at h
    exact chunkLoop_hash _ _ _ _ _ _ _ _ _ h (by intro c hc; cases hc)
  | some enc =>
    rw [chunk_text] at h
    exact chunkLoop_hash _ _ _ _ _ _ _ _ _ h (by intro c hc; cases hc)

/-- Re-upserting a second batch built from the same chunk/embedding pairs
(same ids, possibly different payloads) never changes the stored point
count. -/
theorem viUpsert_twice_length (idx₀ : VectorIndex)
    (z : List (Chunk × List Rat)) (f g : Chunk × List Rat → PointStruct)
    (hfg : ∀ ce, (f ce).id = (g ce).id) :
    (viUpsert (viUpsert idx₀ (z.map f)) (z.map g)).length =
      (viUpsert idx₀ (z.map f)).length := by
  apply viUpsert_length_of_all_mem
  intro p hp
  rcases List.mem_map.mp hp with ⟨ce, hce, rfl⟩
  have hpresent := viUpsert_ids_present (z.map f) idx₀ (f ce)
    (List.mem_map_of_mem f hce)
  rw [hfg ce] at hpresent
  exact hpresent

/-- C8: the point id is the deterministic image of the chunk's
`content_hash` under the fixed-namespace UUIDv5 derivation, chunks carry
the digest of their content (so equal content gives equal id), and a
second `upsert_document` of the same content into the same workspace
leaves the stored point count unchanged. -/
theorem upsert_document_idempotent (tok : Option Tokenizer)
    (hashf uuid5dns : String → String)
    (embedBatch : List String → List (List Rat)) (now₁ now₂ : String)
    (file_content workspace_id source : String) (title url : Option String)
    (tags : List String) (collection_name : String) (idx₀ : VectorIndex)
    (s₁ s₂ : UpsertStats) (idx₁ idx₂ : VectorIndex) (t₁ t₂ : List KBCall)
    (h₁ : upsert_document tok hashf uuid5dns embedBatch now₁ file_content
        workspace_id source title url tags collection_name idx₀ =
      some (s₁, idx₁, t₁))
    (h₂ : upsert_document tok hashf uuid5dns embedBatch now₂ file_content
        workspace_id source title url tags collection_name idx₁ =
      some (s₂, idx₂, t₂)) :
    idx₂.length = idx₁.length ∧
    (∀ c₁ c₂ : Chunk, c₁.content_hash = hashf c₁.content →
      c₂.content_hash = hashf c₂.content → c₁.content = c₂.content →
      point_id uuid5dns c₁.content_hash = point_id uuid5dns c₂.content_hash) ∧
    (∀ cs : List Chunk,
      chunk_text tok hashf file_content 800 200 = some cs →
      ∀ c ∈ cs, c.content_hash = hashf c.content) := by
  refine ⟨?_, ?_, ?_⟩
  · rcases hct : chunk_text tok hashf file_content 800 200 with _ | cs
    · rw [upsert_document, hct] at h₁
      cases h₁
    · rw [upsert_document, hct] at h₁ h₂
      by_cases hd : deduplicate_chunks cs = []
      · simp only [hd, eq_self_iff_true, if_true, Option.some.injEq,
          Prod.mk.injEq] at h₁ h₂
        rw [← h₂.2.1, ← h₁.2.1]
      · simp only [if_neg hd, Option.some.injEq, Prod.mk.injEq] at h₁ h₂
        rw [← h₂.2.1, ← h₁.2.1]
        exact viUpsert_twice_length idx₀ _ _ _ (fun ce => rfl)
  · intro c₁ c₂ hh₁ hh₂ hcc
    rw [point_id, point_id, hh₁, hh₂, hcc]
  · intro cs hcs
    exact chunk_text_hash_of_content tok hashf file_content 800 200 cs hcs

/-- Closed instance of `upsert_document_idempotent`: ingesting `"ab"`
twice (distinct timestamps) stores exactly one point both times. -/
theorem upsert_document_idempotent_witness :
    upsert_document (some charTok) demoHash demoUuid demoEmbed "t0" "ab"
        "ws-a" "upload" none none [] "kb" [] =
      some (⟨1, 1, 0⟩,
        [⟨"uuid5:sha256:ab", [1],
          ⟨"ws-a", "upload", none, none, [], "ab", "sha256:ab", "t0"⟩⟩],
        [KBCall.ensure_collection "kb", KBCall.embed_texts ["ab"],
         KBCall.upsert_points "kb" 1]) ∧
    upsert_document (some charTok) demoHash demoUuid demoEmbed "t1" "ab"
        "ws-a" "upload" none none [] "kb"
        [⟨"uuid5:sha256:ab", [1],
          ⟨"ws-a", "upload", none, none, [], "ab", "sha256:ab", "t0"⟩⟩] =
      some (⟨1, 1, 0⟩,
        [⟨"uuid5:sha256:ab", [1],
          ⟨"ws-a", "upload", none, none, [], "ab", "sha256:ab", "t1"⟩⟩],
        [KBCall.ensure_collection "kb", KBCall.embed_texts ["ab"],
         KBCall.upsert_points "kb" 1]) ∧
    ([⟨"uuid5:sha256:ab", [1],
      ⟨"ws-a", "upload", none, none, [], "ab", "sha256:ab", "t1"⟩⟩] :
        VectorIndex).length =
      ([⟨"uuid5:sha256:ab", [1],
        ⟨"ws-a", "upload", none, none, [], "ab", "sha256:ab", "t0"⟩⟩] :
          VectorIndex).length := by
  have hr₁ : upsert_document (some charTok) demoHash demoUuid demoEmbed "t0"
      "ab" "ws-a" "upload" none none [] "kb" [] =
      some (⟨1, 1, 0⟩,
        [⟨"uuid5:sha256:ab", [1],
          ⟨"ws-a", "upload", none, none, [], "ab", "sha256:ab", "t0"⟩⟩],
        [KBCall.ensure_collection "kb", KBCall.embed_texts ["ab"],
         KBCall.upsert_points "kb" 1]) := by decide
  have hr₂ : upsert_document (some charTok) demoHash demoUuid demoEmbed "t1"
      "ab" "ws-a" "upload" none none [] "kb"
      [⟨"uuid5:sha256:ab", [1],
        ⟨"ws-a", "upload", none, none, [], "ab", "sha256:ab", "t0"⟩⟩] =
      some (⟨1, 1, 0⟩,
        [⟨"uuid5:sha256:ab", [1],
          ⟨"ws-a", "upload", none, none, [], "ab", "sha256:ab", "t1"⟩⟩],
        [KBCall.ensure_collection "kb", KBCall.embed_texts ["ab"],
         KBCall.upsert_points "kb" 1]) := by decide
  exact ⟨hr₁, hr₂,
    (upsert_document_idempotent (some charTok) demoHash demoUuid demoEmbed
      "t0" "t1" "ab" "ws-a" "upload" none none [] "kb" [] ⟨1, 1, 0⟩
      ⟨1, 1, 0⟩ _ _ _ _ hr₁ hr₂).1⟩

/-! ## Claim C6 — Workspace isolation of search -/

/-- C6: `search_kb` never returns a result whose `workspace_id` differs
from the searched workspace, whatever the index contents, the embedding,
or the scoring; and it returns at most `k` results. -/
theorem search_kb_workspace_isolation (embedOne : String → List Rat)
    (sim : List Rat → List Rat → Rat) (idx : VectorIndex)
    (query workspace_id : String) (k : Nat) (with_vectors : Bool) :
    (search_kb embedOne sim idx query workspace_id k with_vectors).length
      ≤ k ∧
    ∀ r ∈ search_kb embedOne sim idx query workspace_id k with_vectors,
      r.workspace_id = workspace_id := by
  constructor
  · rw [search_kb]
    simp only [List.length_map, viSearch]
    exact (List.length_take_le _ _)
  · intro r hr
    rw [search_kb] at hr
    rcases List.mem_map.mp hr with ⟨hit, hhit, rfl⟩
    rw [viSearch] at hhit
    have hsort := List.mem_of_mem_take hhit
    rw [mem_sortByScore] at hsort
    rcases List.mem_map.mp hsort with ⟨p, hp, rfl⟩
    have := List.mem_filter.mp hp
    simpa using this.2

/-- Closed instance of `search_kb_workspace_isolation` on a two-workspace
index: the returned hit carries the searched workspace. -/
theorem search_kb_workspace_isolation_witness :
    (KBSearchResult.mk "idA" "alpha" 0 "ws-a" "upload" none none []) ∈
      search_kb (fun _ => [1]) (fun _ _ => 0)
        [⟨"idA", [1], ⟨"ws-a", "upload", none, none, [], "alpha", "hA", "t"⟩⟩,
         ⟨"idB", [2], ⟨"ws-b", "upload", none, none, [], "beta", "hB", "t"⟩⟩]
        "q" "ws-a" 5 false ∧
    (KBSearchResult.mk "idA" "alpha" 0 "ws-a" "upload" none none []).workspace_id
      = "ws-a" := by
  have hmem : (KBSearchResult.mk "idA" "alpha" 0 "ws-a" "upload" none none [])
      ∈ search_kb (fun _ => [1]) (fun _ _ => 0)
        [⟨"idA", [1], ⟨"ws-a", "upload", none, none, [], "alpha", "hA", "t"⟩⟩,
         ⟨"idB", [2], ⟨"ws-b", "upload", none, none, [], "beta", "hB", "t"⟩⟩]
        "q" "ws-a" 5 false := by decide
  exact ⟨hmem,
    (search_kb_workspace_isolation (fun _ => [1]) (fun _ _ => 0)
      [⟨"idA", [1], ⟨"ws-a", "upload", none, none, [], "alpha", "hA", "t"⟩⟩,
       ⟨"idB", [2], ⟨"ws-b", "upload", none, none, [], "beta", "hB", "t"⟩⟩]
      "q" "ws-a" 5 false).2 _ hmem⟩
